import Mathlib

/-!
Shallow embedding of the SN-Sifu ingestion-and-retrieval core
(`src/app/core/article_processor.py`, `src/app/core/embedding_manager.py`,
`src/app/core/cosmos_db_manager.py`) and proofs about it.

Modelling conventions:
* Python floats are modelled as exact rationals (`ℚ`); real-valued
  quantities produced by `sqrt` (vector norms, cosine similarity) live in `ℝ`.
* Python dicts are association lists with Python-dict update semantics
  (assignment replaces in place, new keys append at the end).
* The Cosmos DB container is an association list keyed by the record's id
  value; `read_item` is lookup, `upsert_item` replaces-or-appends.
* `datetime.now()` is modelled by an ambient stream of timestamp strings
  (`Env.times`), advanced by one on each call; a call counter in the state
  (`St.embedCalls`) records each embedding-provider invocation.
* Python exceptions are `Except` values; state changes made before an
  exception survive it (state is returned alongside the error).
-/

namespace SNSifu

/-! ## Similarity engine (`embedding_manager.py`) -/

/-- Errors of the similarity/embedding layer.  `dimensionMismatch` models the
`ValueError` numpy raises from `np.dot` on 1-d arrays of unequal length. -/
inductive SimErr where
  | dimensionMismatch
deriving DecidableEq

/-- `np.dot(vec1, vec2)` on equal-length 1-d arrays. -/
def dotQ (a b : List ℚ) : ℚ := (List.zipWith (fun x y => x * y) a b).sum

/-- Sum of squares of the entries (the square of `np.linalg.norm`). -/
def sumSq (a : List ℚ) : ℚ := (a.map (fun x => x * x)).sum

/-- The value `np.dot(vec1, vec2) / (np.linalg.norm(vec1) * np.linalg.norm(vec2))`
computed by `cosine_similarity` on equal-length inputs. -/
noncomputable def cosineValue (a b : List ℚ) : ℝ :=
  (dotQ a b : ℝ) / (Real.sqrt ((sumSq a : ℝ)) * Real.sqrt ((sumSq b : ℝ)))

/-- `EmbeddingManager.cosine_similarity`: numpy's dot product fails on
mismatched 1-d shapes, otherwise the cosine value is returned. -/
noncomputable def cosine_similarity (a b : List ℚ) : Except SimErr ℝ :=
  if a.length = b.length then .ok (cosineValue a b) else .error .dimensionMismatch

/-- Sort key of candidate index `i`: `similarities[i]`. -/
def simKey {α : Type} [Inhabited α] (sims : List α) (i : ℕ) : α :=
  sims.getD i default

/-- The comparison used by Python's `sorted(..., key=lambda i: similarities[i],
reverse=True)`: index `a` may precede index `b` iff its key is not smaller. -/
def simRel {α : Type} [LinearOrder α] [Inhabited α] (sims : List α) (a b : ℕ) : Prop :=
  simKey sims b ≤ simKey sims a

instance simRelDecidable {α : Type} [LinearOrder α] [Inhabited α] (sims : List α) :
    DecidableRel (simRel sims) :=
  fun a b => inferInstanceAs (Decidable (simKey sims b ≤ simKey sims a))

/-- `sorted(range(len(similarities)), key=lambda i: similarities[i],
reverse=True)[:top_k]`.  Python's sort is stable, and `reverse=True` reverses
comparisons without disturbing equal elements, which insertion sort with the
non-strict descending comparison reproduces exactly. -/
def rank_indices {α : Type} [LinearOrder α] [Inhabited α] (sims : List α) (k : ℕ) : List ℕ :=
  (List.insertionSort (simRel sims) (List.range sims.length)).take k

/-- The list comprehension `[f(x) for x in l]` over a fallible `f`: the first
raised error aborts the whole comprehension. -/
def mapExcept {ε α β : Type} (f : α → Except ε β) : List α → Except ε (List β)
  | [] => .ok []
  | x :: xs =>
    match f x with
    | .error e => .error e
    | .ok y =>
      match mapExcept f xs with
      | .error e => .error e
      | .ok ys => .ok (y :: ys)

/-- `EmbeddingManager.find_most_similar`: compute
`[cosine_similarity(query_embedding, emb) for emb in embeddings]` — the first
mismatched-length candidate raises, aborting the call — then rank all
candidate indices by similarity and keep the first `top_k`. -/
noncomputable def find_most_similar (query : List ℚ) (embeddings : List (List ℚ))
    (top_k : ℕ) : Except SimErr (List ℕ) :=
  match mapExcept (fun emb => cosine_similarity query emb) embeddings with
  | .error e => .error e
  | .ok sims => .ok (rank_indices sims top_k)

/-! ## Retrying embedding calls (`get_embedding` under `@retry(...,
stop=stop_after_attempt(5))`) -/

/-- `text.replace("\n", " ")`. -/
def normalizeText (text : String) : String := text.replace "\n" " "

/-- Tenacity's attempt loop: call the provider at attempt number `start`;
on failure retry while `remaining` allows, else surface the last error. -/
def runAttempts {ε α : Type} (provider : ℕ → Except ε α) : ℕ → ℕ → Except ε α
  | start, 0 => provider start
  | start, r + 1 =>
    match provider start with
    | .ok v => .ok v
    | .error _ => runAttempts provider (start + 1) r

/-- `EmbeddingManager.get_embedding`: normalize the text, then call the
provider with up to 5 total attempts (`stop_after_attempt(5)`), surfacing the
result of the first successful attempt or the last error.  The provider is
abstracted as a function of the normalized text and the attempt number. -/
def get_embedding {ε α : Type} (provider : String → ℕ → Except ε α) (text : String) :
    Except ε α :=
  runAttempts (provider (normalizeText text)) 0 4

/-! ## Chunked batch embedding (`get_embedding_batch`) -/

/-- Failures of `get_embedding_batch`: `step0` models the `ValueError` Python's
`range(0, n, 0)` raises, `provider` wraps a failure of `get_embeddings`. -/
inductive BatchErr (ε : Type) where
  | step0
  | provider (e : ε)
deriving DecidableEq

/-- `EmbeddingManager.get_embedding_batch`: `for i in range(0, len(texts),
batch_size)` call `get_embeddings(texts[i:i+batch_size])` and concatenate.
Returns the result together with the number of provider calls made. -/
def get_embedding_batch {ε : Type} (embedOnce : List String → Except ε (List (List ℚ)))
    (texts : List String) (batch_size : ℕ) :
    Except (BatchErr ε) (List (List ℚ)) × ℕ :=
  if batch_size = 0 then (.error .step0, 0)
  else
    ((List.range texts.length).filter (fun i => i % batch_size = 0)).foldl
      (fun acc i =>
        match acc with
        | (.error e, n) => (.error e, n)
        | (.ok embs, n) =>
          match embedOnce ((texts.drop i).take batch_size) with
          | .ok chunk => (.ok (embs ++ chunk), n + 1)
          | .error e => (.error (.provider e), n + 1))
      (.ok [], 0)

/-! ## Records, store and pipeline state (`article_processor.py`,
`cosmos_db_manager.py`) -/

/-- A Python value occurring in a record: a string, a float (modelled as an
exact rational), or an embedding vector. -/
inductive Value where
  | str (s : String)
  | num (q : ℚ)
  | vec (v : List ℚ)
deriving DecidableEq

/-- Rendering of a value inside an f-string (`str()`).  String values render
as themselves; the rendering of numbers and vectors is modelled with Lean's
`toString` (the exact float/list spelling is irrelevant to the claims). -/
def Value.format : Value → String
  | .str s => s
  | .num q => toString q
  | .vec v => toString v

/-- A Python dict with string keys, as an association list in insertion
order. -/
abbrev Dict := List (String × Value)

/-- `d[k]` as an option: first binding of `k`. -/
def dget (d : Dict) (k : String) : Option Value :=
  match d with
  | [] => none
  | (k', v) :: rest => if k' = k then some v else dget rest k

/-- `d[k] = v`: replace the binding in place if `k` is present, else append. -/
def dset (d : Dict) (k : String) (v : Value) : Dict :=
  match d with
  | [] => [(k, v)]
  | (k', v') :: rest => if k' = k then (k', v) :: rest else (k', v') :: dset rest k v

/-- `for key, value in upd.items(): base[key] = value`. -/
def overlay (base upd : Dict) : Dict :=
  upd.foldl (fun acc kv => dset acc kv.1 kv.2) base

/-- The Cosmos DB container: records keyed by their id value. -/
abbrev Store := List (Value × Dict)

/-- `CosmosDBManager.get_item`: read by id, a distinguished absent result when
not found. -/
def storeGet (s : Store) (id : Value) : Option Dict :=
  match s with
  | [] => none
  | (id', d) :: rest => if id' = id then some d else storeGet rest id

/-- `CosmosDBManager.upsert_item`: replace the record with the same id in
place, or append a new one. -/
def storeUpsert (s : Store) (id : Value) (rec : Dict) : Store :=
  match s with
  | [] => [(id, rec)]
  | (id', d) :: rest =>
    if id' = id then (id', rec) :: rest else (id', d) :: storeUpsert rest id rec

/-- `CosmosDBManager.get_items_by_type`:
`SELECT * FROM c WHERE c.type = @type`. -/
def get_items_by_type (s : Store) (item_type : String) : List Dict :=
  (s.map Prod.snd).filter (fun d => decide (dget d "type" = some (.str item_type)))

/-- The ambient environment of a pipeline run: the (already retry-wrapped)
embedding call `EmbeddingManager.get_embedding`, and the stream of
`datetime.now().isoformat()` strings indexed by how many `now()` calls have
been made so far. -/
structure Env where
  embed : String → Except String (List ℚ)
  times : ℕ → String

/-- Mutable state threaded through a pipeline run: the container contents,
the number of `datetime.now()` calls made, and the number of
embedding-provider calls made. -/
structure St where
  store : Store
  clock : ℕ
  embedCalls : ℕ
deriving DecidableEq

/-- Pipeline failures (Python exceptions, by site). -/
inductive PipelineErr where
  | keyErr (k : String)
  | notANumber
  | embedErr (e : String)
  | invalidItemType (s : String)
deriving DecidableEq

/-- `float(v)`: succeeds on numbers; other values are modelled as failing
(the claims only exercise numeric versions). -/
def asNum : Value → Except PipelineErr ℚ
  | .num q => .ok q
  | _ => .error .notANumber

/-- Merge-and-bump step of `process_kb_article` when the id was found:
overlay the raw article's entries over the stored record, then set
`merged["Version"] = str(float(merged["Version"]) + 0.1)`. -/
def mergeBump (existing article : Dict) : Except PipelineErr Dict :=
  let merged := overlay existing article
  match dget merged "Version" with
  | none => .error (.keyErr "Version")
  | some vv =>
    match asNum vv with
    | .error e => .error e
    | .ok q => .ok (dset merged "Version" (.num (q + 1 / 10)))

/-- `ArticleProcessor.process_kb_article`.  Looks the article id up in the
store; if found, overlays the raw fields over the stored record and bumps the
merged `"Version"`; embeds `f"{Title} {Introduction} {Instructions}"`; builds
the stored record with exactly the ten lowercase keys of the source literal;
upserts it.  Exceptions surface as errors carrying the state reached so far. -/
def process_kb_article (env : Env) (article : Dict) (st : St) :
    Except PipelineErr Dict × St :=
  match dget article "KB Article #" with
  | none => (.error (.keyErr "KB Article #"), st)
  | some idv =>
    let merged : Except PipelineErr Dict :=
      match storeGet st.store idv with
      | some existing => mergeBump existing article
      | none => .ok article
    match merged with
    | .error e => (.error e, st)
    | .ok art =>
      match dget art "Title", dget art "Introduction", dget art "Instructions" with
      | none, _, _ => (.error (.keyErr "Title"), st)
      | some _, none, _ => (.error (.keyErr "Introduction"), st)
      | some _, some _, none => (.error (.keyErr "Instructions"), st)
      | some tv, some iv, some insv =>
        let content := tv.format ++ " " ++ iv.format ++ " " ++ insv.format
        let st1 : St := { st with embedCalls := st.embedCalls + 1 }
        match env.embed content with
        | .error e => (.error (.embedErr e), st1)
        | .ok embedding =>
          match dget art "Version", dget art "Category", dget art "Keywords" with
          | none, _, _ => (.error (.keyErr "Version"), st1)
          | some _, none, _ => (.error (.keyErr "Category"), st1)
          | some _, some _, none => (.error (.keyErr "Keywords"), st1)
          | some ver, some cat, some kw =>
            let nowS := env.times st1.clock
            let processed : Dict :=
              [("id", idv), ("type", .str "kb_article"), ("version", ver),
               ("category", cat), ("title", tv), ("introduction", iv),
               ("instructions", insv), ("keywords", kw),
               ("updated", .str nowS), ("embedding", .vec embedding)]
            (.ok processed,
             { st1 with store := storeUpsert st1.store idv processed,
                        clock := st1.clock + 1 })

/-- The six optional explanation fields of `process_ticket`, in source
order. -/
def optionalFields : List String :=
  ["summarize_ticket_explanation", "ticket_quality_explanation",
   "user_proficiency_level_explanation", "potential_impact_explanation",
   "resolution_appropriateness_explanation", "potential_root_cause_explanation"]

/-- `ArticleProcessor.process_ticket`.  No store lookup: embeds
`f"{Description} {Close Notes} {summarize_ticket}"`, builds a fresh record
whose id is `f"{tracking_index}_{datetime.now().isoformat()}"`, copies the
optional explanation fields that are present, sets `created_at` from a second
`now()` call, and upserts. -/
def process_ticket (env : Env) (ticket : Dict) (st : St) :
    Except PipelineErr Dict × St :=
  match dget ticket "Description", dget ticket "Close Notes",
        dget ticket "summarize_ticket" with
  | none, _, _ => (.error (.keyErr "Description"), st)
  | some _, none, _ => (.error (.keyErr "Close Notes"), st)
  | some _, some _, none => (.error (.keyErr "summarize_ticket"), st)
  | some dv, some cv, some sv =>
    let content := dv.format ++ " " ++ cv.format ++ " " ++ sv.format
    let st1 : St := { st with embedCalls := st.embedCalls + 1 }
    match env.embed content with
    | .error e => (.error (.embedErr e), st1)
    | .ok embedding =>
      match dget ticket "tracking_index" with
      | none => (.error (.keyErr "tracking_index"), st1)
      | some trk =>
        let t1 := env.times st1.clock
        let st2 : St := { st1 with clock := st1.clock + 1 }
        let idv := Value.str (trk.format ++ "_" ++ t1)
        match dget ticket "ticket_quality", dget ticket "user_proficiency_level",
              dget ticket "potential_impact",
              dget ticket "resolution_appropriateness",
              dget ticket "potential_root_cause" with
        | none, _, _, _, _ => (.error (.keyErr "ticket_quality"), st2)
        | some _, none, _, _, _ => (.error (.keyErr "user_proficiency_level"), st2)
        | some _, some _, none, _, _ => (.error (.keyErr "potential_impact"), st2)
        | some _, some _, some _, none, _ =>
          (.error (.keyErr "resolution_appropriateness"), st2)
        | some _, some _, some _, some _, none =>
          (.error (.keyErr "potential_root_cause"), st2)
        | some qv, some pv, some iv, some rv, some cvz =>
          let t2 := env.times st2.clock
          let st3 : St := { st2 with clock := st2.clock + 1 }
          let base : Dict :=
            [("id", idv), ("type", .str "ticket"), ("tracking_index", trk),
             ("description", dv), ("close_notes", cv), ("summary", sv),
             ("ticket_quality", qv), ("user_proficiency", pv),
             ("potential_impact", iv), ("resolution_appropriateness", rv),
             ("potential_root_cause", cvz), ("embedding", .vec embedding),
             ("created_at", .str t2)]
          let withOpt := optionalFields.foldl
            (fun d f =>
              match dget ticket f with
              | some v => d ++ [(f, v)]
              | none => d) base
          (.ok withOpt,
           { st3 with store := storeUpsert st3.store idv withOpt })

/-- `ArticleProcessor.process_dataframe`: iterate the rows in order,
dispatching on `item_type` inside the loop; the first exception aborts the
remainder and the accumulated result list is discarded. -/
def process_dataframe (env : Env) (rows : List Dict) (item_type : String) (st : St) :
    Except PipelineErr (List Dict) × St :=
  match rows with
  | [] => (.ok [], st)
  | row :: rest =>
    if item_type = "kb_article" then
      match process_kb_article env row st with
      | (.error e, st') => (.error e, st')
      | (.ok rec, st') =>
        match process_dataframe env rest item_type st' with
        | (.error e, st'') => (.error e, st'')
        | (.ok recs, st'') => (.ok (rec :: recs), st'')
    else if item_type = "ticket" then
      match process_ticket env row st with
      | (.error e, st') => (.error e, st')
      | (.ok rec, st') =>
        match process_dataframe env rest item_type st' with
        | (.error e, st'') => (.error e, st'')
        | (.ok recs, st'') => (.ok (rec :: recs), st'')
    else (.error (.invalidItemType item_type), st)

/-! ## Statistics (`get_item_statistics`) -/

/-- `counts.get(k, 0)` on a frequency table. -/
def countGet (m : List (Value × ℕ)) (k : Value) : ℕ :=
  match m with
  | [] => 0
  | (k', n) :: rest => if k' = k then n else countGet rest k

/-- `counts[k] = n` on a frequency table (dict assignment semantics). -/
def countSet (m : List (Value × ℕ)) (k : Value) (n : ℕ) : List (Value × ℕ) :=
  match m with
  | [] => [(k, n)]
  | (k', n') :: rest =>
    if k' = k then (k', n) :: rest else (k', n') :: countSet rest k n

/-- `counts[k] = counts.get(k, 0) + 1`. -/
def bumpCount (m : List (Value × ℕ)) (k : Value) : List (Value × ℕ) :=
  countSet m k (countGet m k + 1)

/-- Build a frequency table by one pass over the records, grouping each by
`key`. -/
def groupCounts (key : Dict → Value) (l : List Dict) : List (Value × ℕ) :=
  l.foldl (fun m d => bumpCount m (key d)) []

/-- The grouping key `rec.get(attr, 'Unknown')`. -/
def groupKey (attr : String) (d : Dict) : Value :=
  (dget d attr).getD (.str "Unknown")

/-- The statistics record returned by `get_item_statistics`. -/
structure Stats where
  total_kb_articles : ℕ
  total_tickets : ℕ
  kb_article_categories : List (Value × ℕ)
  ticket_quality_distribution : List (Value × ℕ)
  user_proficiency_distribution : List (Value × ℕ)
deriving DecidableEq

/-- `ArticleProcessor.get_item_statistics`: fetch all articles and tickets and
build the totals and the three frequency tables.  (The source fills the two
ticket tables in a single loop over the tickets; as the tables are
independent, one pass per table builds the same tables.) -/
def get_item_statistics (s : Store) : Stats :=
  let kb := get_items_by_type s "kb_article"
  let tk := get_items_by_type s "ticket"
  { total_kb_articles := kb.length
    total_tickets := tk.length
    kb_article_categories := groupCounts (groupKey "category") kb
    ticket_quality_distribution := groupCounts (groupKey "ticket_quality") tk
    user_proficiency_distribution := groupCounts (groupKey "user_proficiency") tk }

/-! ## Auxiliary definitions for the verification -/

instance exceptDecEq {ε α : Type} [DecidableEq ε] [DecidableEq α] :
    DecidableEq (Except ε α) :=
  fun a b =>
    match a, b with
    | .ok x, .ok y =>
      if h : x = y then isTrue (by rw [h]) else isFalse (by intro c; cases c; exact h rfl)
    | .error x, .error y =>
      if h : x = y then isTrue (by rw [h]) else isFalse (by intro c; cases c; exact h rfl)
    | .ok _, .error _ => isFalse (by intro c; cases c)
    | .error _, .ok _ => isFalse (by intro c; cases c)

/-- The strict ranking order that `find_most_similar`'s output realizes:
`i` before `j` iff `i`'s similarity is strictly larger, or the similarities
are exactly equal and `i` is the smaller original index. -/
def rankRel {α : Type} [LinearOrder α] [Inhabited α] (sims : List α) (i j : ℕ) : Prop :=
  simKey sims j < simKey sims i ∨ (simKey sims i = simKey sims j ∧ i < j)

/-! ### Concrete fixtures used by witnesses and counterexamples -/

/-- Environment whose provider always returns the embedding `[1]` and whose
clock reads "A" at instant 0 and "B" afterwards. -/
def envA : Env :=
  { embed := fun _ => .ok [], times := fun n => if n = 0 then "A" else "B" }

/-- A stored article record for id "KB1" at version 1.0, shaped exactly like
the records `process_kb_article` persists (lowercase keys). -/
def storedA : Dict :=
  [("id", .str "KB1"), ("type", .str "kb_article"), ("version", .num 1),
   ("category", .str "c0"), ("title", .str "t0"), ("introduction", .str "i0"),
   ("instructions", .str "s0"), ("keywords", .str "k0"),
   ("updated", .str "Z"), ("embedding", .vec [])]

/-- A raw article map for id "KB1" carrying version 5.0. -/
def rawA : Dict :=
  [("KB Article #", .str "KB1"), ("Version", .num 5), ("Category", .str "c1"),
   ("Title", .str "t1"), ("Introduction", .str "i1"),
   ("Instructions", .str "s1"), ("Keywords", .str "k1")]

/-- State whose store already holds `storedA` under id "KB1". -/
def stA : St := { store := [(.str "KB1", storedA)], clock := 0, embedCalls := 0 }

/-- The empty starting state. -/
def st0 : St := { store := [], clock := 0, embedCalls := 0 }

/-- The record `process_kb_article envA rawA stA` stores: raw fields win,
and the version is raw's 5.0 bumped to 5.1. -/
def recUpdA : Dict :=
  [("id", .str "KB1"), ("type", .str "kb_article"), ("version", .num (5 + 1 / 10)),
   ("category", .str "c1"), ("title", .str "t1"), ("introduction", .str "i1"),
   ("instructions", .str "s1"), ("keywords", .str "k1"),
   ("updated", .str "A"), ("embedding", .vec [])]

/-- The record `process_kb_article envA rawA st0` stores: a create, version
kept at raw's 5.0. -/
def recNewA : Dict :=
  [("id", .str "KB1"), ("type", .str "kb_article"), ("version", .num 5),
   ("category", .str "c1"), ("title", .str "t1"), ("introduction", .str "i1"),
   ("instructions", .str "s1"), ("keywords", .str "k1"),
   ("updated", .str "A"), ("embedding", .vec [])]

/-- A complete raw ticket map with tracking index "TK1". -/
def tickA : Dict :=
  [("tracking_index", .str "TK1"), ("Description", .str "d"),
   ("Close Notes", .str "c"), ("summarize_ticket", .str "s"),
   ("ticket_quality", .str "Good"), ("user_proficiency_level", .str "Beg"),
   ("potential_impact", .str "Low"), ("resolution_appropriateness", .str "App"),
   ("potential_root_cause", .str "rc")]

/-- A raw ticket map missing its required "Description" key. -/
def tickBad : Dict :=
  [("tracking_index", .str "TK2"), ("Close Notes", .str "c"),
   ("summarize_ticket", .str "s")]

/-- First ticket ingestion: `process_ticket envA tickA st0`. -/
def tkRun1 : Except PipelineErr Dict × St := process_ticket envA tickA st0

/-- Second ticket ingestion of the same raw map, from the state the first one
left behind. -/
def tkRun2 : Except PipelineErr Dict × St := process_ticket envA tickA tkRun1.2

/-- The record stored by the first ticket ingestion. -/
def tkRec1 : Dict :=
  match tkRun1.1 with
  | .ok r => r
  | .error _ => []

/-- The record stored by the second ticket ingestion. -/
def tkRec2 : Dict :=
  match tkRun2.1 with
  | .ok r => r
  | .error _ => []

/-- A provider that fails on attempts 0–3 and succeeds on attempt 4. -/
def provLate : String → ℕ → Except String (List ℚ) :=
  fun _ i => if i = 4 then .ok [1] else .error "earlier"

/-- A provider that agrees with `provLate` on attempts 0–4 and differs
afterwards. -/
def provLate2 : String → ℕ → Except String (List ℚ) :=
  fun _ i => if i = 4 then .ok [1] else if i = 5 then .ok [2] else .error "earlier"

/-- A provider that fails on every attempt, with a distinguished message on
attempt 4. -/
def provFail : String → ℕ → Except String (List ℚ) :=
  fun _ i => .error (if i = 4 then "last" else "earlier")

/-- The error messages `provFail` produces. -/
def esFail : ℕ → String := fun i => if i = 4 then "last" else "earlier"

/-- A batch provider for the `get_embedding_batch` witness. -/
def batchProv : List String → Except String (List (List ℚ)) := fun _ => .ok []

/-- A concrete nonzero query vector for the ranking witness. -/
def q2 : List ℚ := [1]

/-- Two concrete nonzero candidate embeddings of the query's length. -/
def embs2 : List (List ℚ) := [[1], [2]]

/-- The ranking `find_most_similar q2 embs2 2` returns. -/
noncomputable def out2 : List ℕ :=
  rank_indices (embs2.map (fun emb => cosineValue q2 emb)) 2

/-! ## Dict lemmas -/

theorem dget_dset_self (d : Dict) (k : String) (v : Value) :
    dget (dset d k v) k = some v := by
  induction d with
  | nil => simp [dget, dset]
  | cons kv rest ih =>
    obtain ⟨k', v'⟩ := kv
    by_cases h : k' = k
    · simp [dget, dset, h]
    · simp [dget, dset, h, ih]

theorem dget_dset_ne (d : Dict) (k k' : String) (v : Value) (h : k ≠ k') :
    dget (dset d k v) k' = dget d k' := by
  induction d with
  | nil => simp [dget, dset, h]
  | cons kv rest ih =>
    obtain ⟨k0, v0⟩ := kv
    by_cases h0 : k0 = k
    · subst h0
      simp [dget, dset, h]
    · simp only [dset, if_neg h0, dget]
      by_cases h1 : k0 = k'
      · simp [h1]
      · simp [h1, ih]

theorem dget_none_of_not_mem (d : Dict) (k : String) (h : k ∉ d.map Prod.fst) :
    dget d k = none := by
  induction d with
  | nil => rfl
  | cons kv rest ih =>
    obtain ⟨k0, v0⟩ := kv
    simp only [List.map_cons, List.mem_cons] at h
    push_neg at h
    simp only [dget, if_neg h.1.symm]
    exact ih h.2

theorem overlay_dget_none (upd : Dict) : ∀ (base : Dict) (k : String),
    dget upd k = none → dget (overlay base upd) k = dget base k := by
  induction upd with
  | nil => intro base k _; rfl
  | cons kv rest ih =>
    intro base k h
    obtain ⟨k0, v0⟩ := kv
    simp only [dget] at h
    split at h
    · exact absurd h (by simp)
    · rename_i hk0
      have hover : overlay base ((k0, v0) :: rest) = overlay (dset base k0 v0) rest := rfl
      rw [hover, ih (dset base k0 v0) k h, dget_dset_ne base k0 k v0 hk0]

theorem overlay_dget_some (upd : Dict) : ∀ (base : Dict) (k : String) (v : Value),
    (upd.map Prod.fst).Nodup → dget upd k = some v →
    dget (overlay base upd) k = some v := by
  induction upd with
  | nil => intro base k v _ h; simp [dget] at h
  | cons kv rest ih =>
    intro base k v hnd h
    obtain ⟨k0, v0⟩ := kv
    simp only [List.map_cons, List.nodup_cons] at hnd
    have hover : overlay base ((k0, v0) :: rest) = overlay (dset base k0 v0) rest := rfl
    simp only [dget] at h
    split at h
    · rename_i hk0
      have hv : v0 = v := by injection h
      have hrest : dget rest k = none := dget_none_of_not_mem rest k (hk0 ▸ hnd.1)
      rw [hover, overlay_dget_none rest (dset base k0 v0) k hrest, hk0, dget_dset_self]
      exact congrArg some hv
    · rename_i hk0
      rw [hover]
      exact ih (dset base k0 v0) k v hnd.2 h

/-! ## Article versioning (claims C1 and C9) -/

/-- On the found path, the merged map's `"Version"` is raw's value (raw wins
the overlay), so the bump writes raw's version plus 0.1. -/
theorem mergeBump_eq (existing raw : Dict) (q : ℚ)
    (hnd : (raw.map Prod.fst).Nodup) (hv : dget raw "Version" = some (.num q)) :
    mergeBump existing raw
      = .ok (dset (overlay existing raw) "Version" (.num (q + 1 / 10))) := by
  have h1 : dget (overlay existing raw) "Version" = some (.num q) :=
    overlay_dget_some raw existing "Version" (.num q) hnd hv
  simp [mergeBump, h1, asNum]

/-- Updating id "KB1" (stored at version 1.0) with a raw map at version 5.0
stores version 5.1, by computation. -/
theorem runUpdate_eq :
    process_kb_article envA rawA stA
      = (.ok recUpdA, (process_kb_article envA rawA stA).2) := by
  rfl

/-- Creating id "KB1" from the empty store keeps raw's version 5.0, by
computation. -/
theorem runCreate_eq :
    process_kb_article envA rawA st0
      = (.ok recNewA, (process_kb_article envA rawA st0).2) := by
  rfl

/-- C1 counterexample: with "KB1" stored at version 1.0 and a raw map at
version 5.0, the stored version is 5.1 — raw's version plus 0.1 — and not the
1.1 the claim predicts from the previously stored version.  (Stored records
keep their version under the lowercase key "version", so the merge's
capitalized "Version" lookup always sees raw's value.) -/
theorem process_kb_article_version_cex :
    (process_kb_article envA rawA stA).1.map (fun r => dget r "version")
      = Except.ok (some (Value.num (51 / 10)))
    ∧ (process_kb_article envA rawA stA).1.map (fun r => dget r "version")
      ≠ Except.ok (some (Value.num (11 / 10))) := by
  have h : (process_kb_article envA rawA stA).1.map (fun r => dget r "version")
      = Except.ok (some (Value.num (51 / 10))) := by
    rw [runUpdate_eq]
    simp [Except.map, recUpdA, dget]
    norm_num
  refine ⟨h, ?_⟩
  rw [h]
  simp only [ne_eq, Except.ok.injEq, Option.some.injEq, Value.num.injEq]
  norm_num

/-- C1 (amended): for a raw article map carrying a numeric version `q`, a
successful `process_kb_article` stores version `q + 0.1` when the id was
already in the store (the raw input's version is bumped — the previously
stored version is ignored), and stores `q` as-is when the id was not found. -/
theorem process_kb_article_version_amended (env : Env) (st : St) (raw : Dict)
    (idv : Value) (q : ℚ) (rec : Dict) (st' : St)
    (hnd : (raw.map Prod.fst).Nodup)
    (hid : dget raw "KB Article #" = some idv)
    (hv : dget raw "Version" = some (.num q))
    (hrun : process_kb_article env raw st = (.ok rec, st')) :
    (storeGet st.store idv ≠ none → dget rec "version" = some (.num (q + 1 / 10))) ∧
    (storeGet st.store idv = none → dget rec "version" = some (.num q)) := by
  unfold process_kb_article at hrun
  rw [hid] at hrun
  simp only [] at hrun
  cases hsg : storeGet st.store idv with
  | some ex =>
    rw [hsg] at hrun
    dsimp only at hrun
    rw [mergeBump_eq ex raw q hnd hv] at hrun
    dsimp only at hrun
    constructor
    · intro _
      split at hrun <;> try (exfalso; simp at hrun; done)
      split at hrun <;> try (exfalso; simp at hrun; done)
      split at hrun <;> try (exfalso; simp at hrun; done)
      rename_i ver cat kw hVer hCat hKw
      rw [dget_dset_self] at hVer
      injection hrun with h1 h2
      injection h1 with h3
      subst h3
      injection hVer with hVer'
      simp [dget, ← hVer']
    · intro hno
      exact Option.noConfusion hno
  | none =>
    rw [hsg] at hrun
    dsimp only at hrun
    constructor
    · intro hcon
      exact absurd rfl hcon
    · intro _
      split at hrun <;> try (exfalso; simp at hrun; done)
      split at hrun <;> try (exfalso; simp at hrun; done)
      split at hrun <;> try (exfalso; simp at hrun; done)
      rename_i ver cat kw hVer hCat hKw
      rw [hv] at hVer
      injection hrun with h1 h2
      injection h1 with h3
      subst h3
      injection hVer with hVer'
      simp [dget, ← hVer']

/-- C1 witness: the amended theorem applied to the concrete update run
(version 5.0 over stored 1.0 gives 5.1) and the concrete create run (version
5.0 kept). -/
theorem process_kb_article_version_amended_witness :
    dget recUpdA "version" = some (Value.num (5 + 1 / 10))
    ∧ dget recNewA "version" = some (Value.num 5) := by
  have h1 := process_kb_article_version_amended envA stA rawA (.str "KB1") 5 recUpdA
    (process_kb_article envA rawA stA).2 (by decide) (by rfl) (by rfl) runUpdate_eq
  have h2 := process_kb_article_version_amended envA st0 rawA (.str "KB1") 5 recNewA
    (process_kb_article envA rawA st0).2 (by decide) (by rfl) (by rfl) runCreate_eq
  exact ⟨h1.1 (by decide), h2.2 rfl⟩

/-- C9: every record a successful `process_kb_article` returns (and upserts)
has exactly the ten keys of the source's `processed_article` literal, in
order; no other raw or previously stored field is carried over. -/
theorem process_kb_article_record_keys (env : Env) (raw : Dict) (st : St)
    (rec : Dict) (st' : St)
    (hrun : process_kb_article env raw st = (.ok rec, st')) :
    rec.map Prod.fst = ["id", "type", "version", "category", "title",
      "introduction", "instructions", "keywords", "updated", "embedding"] := by
  unfold process_kb_article at hrun
  dsimp only at hrun
  repeat' (split at hrun <;> try (exfalso; simp at hrun; done))
  all_goals
    injection hrun with h1 h2
  all_goals
    injection h1 with h3
  all_goals
    subst h3
  all_goals simp

/-- C9 witness: the key-list theorem applied to the concrete update run. -/
theorem process_kb_article_record_keys_witness :
    recUpdA.map Prod.fst = ["id", "type", "version", "category", "title",
      "introduction", "instructions", "keywords", "updated", "embedding"] :=
  process_kb_article_record_keys envA rawA stA recUpdA
    (process_kb_article envA rawA stA).2 runUpdate_eq

/-! ## Ranking by similarity (claim C2) -/

/-- Inserting an index smaller than everything in an already ranked list with
the non-strict descending comparison keeps the list ranked: the new index goes
before every strictly smaller key and before every equal key (it is the
smaller index). -/
theorem orderedInsert_rankRel {α : Type} [LinearOrder α] [Inhabited α]
    (sims : List α) (a : ℕ) :
    ∀ (s : List ℕ), s.Pairwise (rankRel sims) → (∀ b ∈ s, a < b) →
      (List.orderedInsert (simRel sims) a s).Pairwise (rankRel sims) := by
  intro s
  induction s with
  | nil =>
    intro _ _
    simp [List.orderedInsert]
  | cons b t ih =>
    intro hs ha
    rw [List.orderedInsert]
    by_cases hab : simRel sims a b
    · rw [if_pos hab]
      rw [List.pairwise_cons]
      refine ⟨?_, hs⟩
      intro c hc
      rcases List.mem_cons.mp hc with hcb | hct
      · subst hcb
        rcases lt_or_eq_of_le hab with hlt | heq
        · exact Or.inl hlt
        · exact Or.inr ⟨heq.symm, ha c (List.mem_cons_self c t)⟩
      · have hbc := (List.pairwise_cons.mp hs).1 c hct
        have hcb_le : simKey sims c ≤ simKey sims b := by
          rcases hbc with h | h
          · exact le_of_lt h
          · exact le_of_eq h.1.symm
        rcases lt_or_eq_of_le (le_trans hcb_le hab) with hlt | heq
        · exact Or.inl hlt
        · exact Or.inr ⟨heq.symm, ha c (List.mem_cons_of_mem b hct)⟩
    · rw [if_neg hab]
      rw [List.pairwise_cons]
      constructor
      · intro c hc
        rcases (List.mem_orderedInsert (simRel sims)).mp hc with hca | hct
        · subst hca
          exact Or.inl (not_le.mp hab)
        · exact (List.pairwise_cons.mp hs).1 c hct
      · exact ih (List.pairwise_cons.mp hs).2 fun x hx => ha x (List.mem_cons_of_mem b hx)

/-- Insertion sort of a strictly increasing index list with the non-strict
descending comparison yields a list ranked by the strict descending order
with ties resolved towards the smaller index (stability). -/
theorem insertionSort_rankRel {α : Type} [LinearOrder α] [Inhabited α] (sims : List α) :
    ∀ (l : List ℕ), l.Pairwise (· < ·) →
      (List.insertionSort (simRel sims) l).Pairwise (rankRel sims) := by
  intro l
  induction l with
  | nil =>
    intro _
    simp [List.insertionSort]
  | cons a t ih =>
    intro hl
    rw [List.insertionSort]
    have h1 := List.pairwise_cons.mp hl
    refine orderedInsert_rankRel sims a _ (ih h1.2) ?_
    intro b hb
    exact h1.1 b ((List.mem_insertionSort (simRel sims)).mp hb)

/-- The ranking `rank_indices` produces is pairwise ordered by the strict
descending-similarity order with ties towards the smaller index. -/
theorem rank_indices_pairwise {α : Type} [LinearOrder α] [Inhabited α]
    (sims : List α) (k : ℕ) :
    (rank_indices sims k).Pairwise (rankRel sims) := by
  have h := insertionSort_rankRel sims (List.range sims.length)
    (List.pairwise_lt_range _)
  exact h.sublist (List.take_sublist k _)

/-- When the similarity comprehension completes without a dimension mismatch,
the computed list is the pointwise cosine value of every candidate. -/
theorem mapExcept_cosine (query : List ℚ) :
    ∀ (l : List (List ℚ)) (ys : List ℝ),
      mapExcept (fun emb => cosine_similarity query emb) l = .ok ys →
      ys = l.map (fun emb => cosineValue query emb) := by
  intro l
  induction l with
  | nil =>
    intro ys h
    simp only [mapExcept] at h
    injection h with h1
    rw [← h1]
    rfl
  | cons e es ih =>
    intro ys h
    simp only [mapExcept] at h
    cases hce : cosine_similarity query e with
    | error e2 =>
      rw [hce] at h
      exact absurd h (by simp)
    | ok y =>
      rw [hce] at h
      cases hrest : mapExcept (fun emb => cosine_similarity query emb) es with
      | error e2 =>
        rw [hrest] at h
        exact absurd h (by simp)
      | ok ys2 =>
        rw [hrest] at h
        injection h with h1
        have hy : y = cosineValue query e := by
          unfold cosine_similarity at hce
          split at hce
          · injection hce with h2
            exact h2.symm
          · exact absurd hce (by simp)
        rw [← h1, List.map_cons, hy, ih ys2 hrest]

/-- C2: whenever `find_most_similar` returns a ranking (every candidate has
the query's length, so no dimension mismatch is raised) and neither the query
nor any candidate has zero norm (so every float similarity is a real number,
where the exact model is faithful), the returned indices are ordered by
cosine similarity descending with equal similarities resolved towards the
smaller original index; in particular ranking similarities [0.9, 0.5, 0.9]
with k = 2 yields indices [0, 2]. -/
theorem find_most_similar_ranked :
    (∀ (query : List ℚ) (embeddings : List (List ℚ)) (k : ℕ) (out : List ℕ),
      sumSq query ≠ 0 →
      (∀ emb ∈ embeddings, sumSq emb ≠ 0) →
      find_most_similar query embeddings k = .ok out →
      out.Pairwise (rankRel (embeddings.map (fun emb => cosineValue query emb))))
    ∧ rank_indices [(9 : ℚ) / 10, 5 / 10, 9 / 10] 2 = [0, 2] := by
  constructor
  · intro q embs k out _ _ hrun
    unfold find_most_similar at hrun
    cases hme : mapExcept (fun emb => cosine_similarity q emb) embs with
    | error e =>
      rw [hme] at hrun
      exact absurd hrun (by simp)
    | ok sims =>
      rw [hme] at hrun
      injection hrun with h1
      rw [← h1, mapExcept_cosine q embs sims hme]
      exact rank_indices_pairwise _ k
  · norm_num [rank_indices, List.insertionSort, List.orderedInsert, simRel, simKey,
      List.getD, List.get?, List.range, List.range.loop]

/-- C2 witness: the ranking theorem applied to a concrete query and two
concrete candidates of its length, all with nonzero norms. -/
theorem find_most_similar_ranked_witness :
    out2.Pairwise (rankRel (embs2.map (fun emb => cosineValue q2 emb))) := by
  refine find_most_similar_ranked.1 q2 embs2 2 out2 ?_ ?_ ?_
  · norm_num [q2, sumSq]
  · intro emb hm
    rcases List.mem_cons.mp hm with h | h
    · subst h
      norm_num [sumSq]
    · rcases List.mem_cons.mp h with h2 | h2
      · subst h2
        norm_num [sumSq]
      · exact absurd h2 (by simp)
  · simp [find_most_similar, mapExcept, cosine_similarity, q2, embs2, out2]

/-! ## Retry policy (claim C3) -/

/-- `runAttempts` only ever consults the provider on the attempts its budget
allows: providers that agree there produce the same outcome. -/
theorem runAttempts_congr {ε α : Type} (f g : ℕ → Except ε α) :
    ∀ (r start : ℕ), (∀ i, start ≤ i → i ≤ start + r → f i = g i) →
      runAttempts f start r = runAttempts g start r := by
  intro r
  induction r with
  | zero =>
    intro start h
    simp [runAttempts, h start le_rfl (by omega)]
  | succ n ih =>
    intro start h
    simp only [runAttempts]
    rw [h start le_rfl (by omega)]
    cases hg : g start with
    | ok v => rfl
    | error e => exact ih (start + 1) fun i h1 h2 => h i (by omega) (by omega)

/-- C3: `get_embedding` makes at most 5 provider attempts: if the provider
fails on attempts 0–3 and succeeds on attempt 4 the provider's result is
returned; if it fails on all 5 attempts the last error is surfaced; and the
outcome depends only on the provider's first 5 attempts. -/
theorem get_embedding_retry_policy (provider : String → ℕ → Except String (List ℚ))
    (text : String) (es : ℕ → String) (v : List ℚ) :
    ((∀ i, i < 4 → provider (normalizeText text) i = .error (es i)) →
      provider (normalizeText text) 4 = .ok v →
      get_embedding provider text = .ok v)
    ∧ ((∀ i, i < 5 → provider (normalizeText text) i = .error (es i)) →
      get_embedding provider text = .error (es 4))
    ∧ (∀ provider2 : String → ℕ → Except String (List ℚ),
      (∀ i, i < 5 → provider (normalizeText text) i = provider2 (normalizeText text) i) →
      get_embedding provider text = get_embedding provider2 text) := by
  refine ⟨?_, ?_, ?_⟩
  · intro hf h4
    simp [get_embedding, runAttempts, hf 0 (by norm_num), hf 1 (by norm_num),
      hf 2 (by norm_num), hf 3 (by norm_num), h4]
  · intro hf
    simp [get_embedding, runAttempts, hf 0 (by norm_num), hf 1 (by norm_num),
      hf 2 (by norm_num), hf 3 (by norm_num), hf 4 (by norm_num)]
  · intro p2 h
    unfold get_embedding
    exact runAttempts_congr _ _ 4 0 fun i h1 h2 => h i (by omega)

/-- C3 witness: a provider failing 4 times then succeeding yields the
provider's result; a provider failing 5 times surfaces the 5th error; the
outcome ignores attempts beyond the 5th. -/
theorem get_embedding_retry_policy_witness :
    get_embedding provLate "t" = .ok [1]
    ∧ get_embedding provFail "t" = .error "last"
    ∧ get_embedding provLate "t" = get_embedding provLate2 "t" := by
  refine ⟨?_, ?_, ?_⟩
  · exact (get_embedding_retry_policy provLate "t" (fun _ => "earlier") [1]).1
      (fun i hi => by simp only [provLate]; rw [if_neg (by omega)]) rfl
  · exact (get_embedding_retry_policy provFail "t" esFail [1]).2.1 fun i hi => rfl
  · refine (get_embedding_retry_policy provLate "t" esFail [1]).2.2 provLate2 ?_
    intro i hi
    by_cases h4 : i = 4
    · subst h4
      rfl
    · simp only [provLate, provLate2]
      rw [if_neg h4, if_neg h4, if_neg (show ¬ i = 5 by omega)]

/-! ## Dimension mismatch (claim C4) -/

/-- C4: `cosine_similarity` on vectors of different lengths fails with the
dimension-mismatch error instead of returning a number. -/
theorem cosine_similarity_dim_mismatch (a b : List ℚ) (h : a.length ≠ b.length) :
    cosine_similarity a b = .error .dimensionMismatch := by
  simp [cosine_similarity, h]

/-- C4 witness: vectors of length 3 and 4. -/
theorem cosine_similarity_dim_mismatch_witness :
    ([(1 : ℚ), 2, 3].length ≠ [(1 : ℚ), 2, 3, 4].length)
    ∧ cosine_similarity [(1 : ℚ), 2, 3] [(1 : ℚ), 2, 3, 4]
        = .error .dimensionMismatch :=
  ⟨by decide, cosine_similarity_dim_mismatch _ _ (by decide)⟩

/-! ## Empty chunked batch (claim C10) -/

/-- C10: for any positive chunk size, `get_embedding_batch` of no texts
returns the empty result and makes no provider call. -/
theorem get_embedding_batch_empty {ε : Type}
    (embedOnce : List String → Except ε (List (List ℚ))) (batch_size : ℕ)
    (h : 0 < batch_size) :
    get_embedding_batch embedOnce [] batch_size = (.ok [], 0) := by
  simp [get_embedding_batch, Nat.pos_iff_ne_zero.mp h]

/-- C10 witness: chunk size 3, a concrete provider, no texts. -/
theorem get_embedding_batch_empty_witness :
    (0 < 3) ∧ get_embedding_batch batchProv [] 3 = (.ok [], 0) :=
  ⟨by decide, get_embedding_batch_empty batchProv 3 (by decide)⟩


/-! ## Batch processing (claims C5 and C6) -/

/-- Once a prefix of the batch fails, appending further rows changes nothing:
the same error and the same state come back, so no row after the failing one
is processed (no embedding call, no store write, no clock advance). -/
theorem process_dataframe_error_append (env : Env) (kind : String) :
    ∀ (rows : List Dict) (st : St) (e : PipelineErr) (st1 : St),
      process_dataframe env rows kind st = (.error e, st1) →
      ∀ (more : List Dict),
        process_dataframe env (rows ++ more) kind st = (.error e, st1) := by
  intro rows
  induction rows with
  | nil =>
    intro st e st1 h more
    exact absurd h (by simp [process_dataframe])
  | cons row rest ih =>
    intro st e st1 h more
    rw [List.cons_append]
    rw [process_dataframe.eq_def] at h
    conv_lhs => rw [process_dataframe.eq_def]
    dsimp only at h ⊢
    by_cases hkb : kind = "kb_article"
    · rw [if_pos hkb] at h ⊢
      cases hrow : process_kb_article env row st with
      | mk res st' =>
        rw [hrow] at h
        cases res with
        | error e2 =>
          dsimp only at h ⊢
          exact h
        | ok rec =>
          dsimp only at h ⊢
          cases hrest : process_dataframe env rest kind st' with
          | mk res2 st'' =>
            rw [hrest] at h
            cases res2 with
            | error e3 =>
              dsimp only at h
              rw [ih st' e3 st'' hrest more]
              exact h
            | ok recs =>
              dsimp only at h
              exact absurd h (by simp)
    · rw [if_neg hkb] at h ⊢
      by_cases htk : kind = "ticket"
      · rw [if_pos htk] at h ⊢
        cases hrow : process_ticket env row st with
        | mk res st' =>
          rw [hrow] at h
          cases res with
          | error e2 =>
            dsimp only at h ⊢
            exact h
          | ok rec =>
            dsimp only at h ⊢
            cases hrest : process_dataframe env rest kind st' with
            | mk res2 st'' =>
              rw [hrest] at h
              cases res2 with
              | error e3 =>
                dsimp only at h
                rw [ih st' e3 st'' hrest more]
                exact h
              | ok recs =>
                dsimp only at h
                exact absurd h (by simp)
      · rw [if_neg htk] at h ⊢
        exact h

/-- A batch that succeeds on a prefix processes appended rows from the state
the prefix left, and prepends the prefix's records in order. -/
theorem process_dataframe_ok_append (env : Env) (kind : String) :
    ∀ (rows : List Dict) (st : St) (items : List Dict) (st1 : St),
      process_dataframe env rows kind st = (.ok items, st1) →
      ∀ (more : List Dict),
        process_dataframe env (rows ++ more) kind st
          = ((process_dataframe env more kind st1).1.map (fun rest2 => items ++ rest2),
             (process_dataframe env more kind st1).2) := by
  intro rows
  induction rows with
  | nil =>
    intro st items st1 h more
    rw [process_dataframe.eq_def] at h
    dsimp only at h
    injection h with h1 h2
    injection h1 with h3
    subst h2
    subst h3
    rw [List.nil_append]
    cases hm : process_dataframe env more kind st with
    | mk res stx =>
      cases res with
      | error e => simp [Except.map]
      | ok l => simp [Except.map]
  | cons row rest ih =>
    intro st items st1 h more
    rw [List.cons_append]
    rw [process_dataframe.eq_def] at h
    conv_lhs => rw [process_dataframe.eq_def]
    dsimp only at h ⊢
    by_cases hkb : kind = "kb_article"
    · rw [if_pos hkb] at h ⊢
      cases hrow : process_kb_article env row st with
      | mk res st' =>
        rw [hrow] at h
        cases res with
        | error e2 =>
          dsimp only at h
          exact absurd h (by simp)
        | ok rec =>
          dsimp only at h ⊢
          cases hrest : process_dataframe env rest kind st' with
          | mk res2 st'' =>
            rw [hrest] at h
            cases res2 with
            | error e3 =>
              dsimp only at h
              exact absurd h (by simp)
            | ok recs =>
              dsimp only at h
              injection h with h1 h2
              injection h1 with h3
              subst h2
              subst h3
              rw [ih st' recs st'' hrest more]
              cases hm : (process_dataframe env more kind st'').1 with
              | error e4 => simp [Except.map]
              | ok l => simp [Except.map]
    · rw [if_neg hkb] at h ⊢
      by_cases htk : kind = "ticket"
      · rw [if_pos htk] at h ⊢
        cases hrow : process_ticket env row st with
        | mk res st' =>
          rw [hrow] at h
          cases res with
          | error e2 =>
            dsimp only at h
            exact absurd h (by simp)
          | ok rec =>
            dsimp only at h ⊢
            cases hrest : process_dataframe env rest kind st' with
            | mk res2 st'' =>
              rw [hrest] at h
              cases res2 with
              | error e3 =>
                dsimp only at h
                exact absurd h (by simp)
              | ok recs =>
                dsimp only at h
                injection h with h1 h2
                injection h1 with h3
                subst h2
                subst h3
                rw [ih st' recs st'' hrest more]
                cases hm : (process_dataframe env more kind st'').1 with
                | error e4 => simp [Except.map]
                | ok l => simp [Except.map]
      · rw [if_neg htk] at h ⊢
        exact absurd h (by simp)

/-- C5: `process_dataframe` is sequential fail-fast left-to-right processing:
a failing batch returns the first failure and ignores every row after it, and
a successful batch prefix contributes its records, in input order, in front
of whatever the remaining rows produce from the resulting state. -/
theorem process_dataframe_sequential (env : Env) (kind : String) (st : St)
    (rows more : List Dict) :
    (∀ (e : PipelineErr) (st1 : St),
      process_dataframe env rows kind st = (.error e, st1) →
      process_dataframe env (rows ++ more) kind st = (.error e, st1))
    ∧ (∀ (items : List Dict) (st1 : St),
      process_dataframe env rows kind st = (.ok items, st1) →
      process_dataframe env (rows ++ more) kind st
        = ((process_dataframe env more kind st1).1.map (fun rest2 => items ++ rest2),
           (process_dataframe env more kind st1).2)) :=
  ⟨fun e st1 h => process_dataframe_error_append env kind rows st e st1 h more,
   fun items st1 h => process_dataframe_ok_append env kind rows st items st1 h more⟩

/-- C5 witness: a batch whose first ticket is invalid fails with that ticket's
error and the untouched initial state no matter what follows; a batch whose
first ticket succeeds prepends its record to what the rest produces. -/
theorem process_dataframe_sequential_witness :
    process_dataframe envA [tickBad, tickA] "ticket" st0
      = (.error (.keyErr "Description"), st0)
    ∧ process_dataframe envA [tickA, tickA] "ticket" st0
      = ((process_dataframe envA [tickA] "ticket" tkRun1.2).1.map
           (fun rest2 => [tkRec1] ++ rest2),
         (process_dataframe envA [tickA] "ticket" tkRun1.2).2) :=
  ⟨(process_dataframe_sequential envA "ticket" st0 [tickBad] [tickA]).1
      (.keyErr "Description") st0 (by decide),
   (process_dataframe_sequential envA "ticket" st0 [tickA] [tickA]).2
      [tkRec1] tkRun1.2 (by decide)⟩

/-- C6 counterexample: the empty batch with an invalid kind returns the empty
result and leaves the state untouched — it does not fail, because the source
validates `item_type` inside the per-row loop, which never runs. -/
theorem process_dataframe_invalid_kind_cex :
    process_dataframe envA [] "bogus" st0 = (.ok [], st0)
    ∧ (process_dataframe envA [] "bogus" st0).1
        ≠ .error (.invalidItemType "bogus") :=
  ⟨by decide, by decide⟩

/-- C6 (amended): on a nonempty batch, an invalid kind fails with the
invalid-argument error on the first row, before any processing: the state is
returned unchanged, so no embedding call and no store write happened. -/
theorem process_dataframe_invalid_kind (env : Env) (kind : String) (st : St)
    (row : Dict) (rest : List Dict)
    (h1 : kind ≠ "kb_article") (h2 : kind ≠ "ticket") :
    process_dataframe env (row :: rest) kind st
      = (.error (.invalidItemType kind), st) := by
  rw [process_dataframe.eq_def]
  dsimp only
  rw [if_neg h1, if_neg h2]

/-- C6 witness: the amended theorem at kind "bogus" on a one-ticket batch. -/
theorem process_dataframe_invalid_kind_witness :
    process_dataframe envA [tickA] "bogus" st0
      = (.error (.invalidItemType "bogus"), st0) :=
  process_dataframe_invalid_kind envA "bogus" st0 tickA [] (by decide) (by decide)

/-! ## Ticket identity (claim C7) -/

theorem string_append_right_inj (p a b : String) (h : p ++ a = p ++ b) : a = b := by
  have hd := congrArg String.data h
  simp only [String.data_append] at hd
  exact String.ext (List.append_cancel_left hd)

theorem dget_append_some (d l : Dict) (k : String) (v : Value)
    (h : dget d k = some v) : dget (d ++ l) k = some v := by
  induction d with
  | nil => exact absurd h (by simp [dget])
  | cons kv rest ih =>
    obtain ⟨k0, v0⟩ := kv
    simp only [dget] at h
    rw [List.cons_append]
    simp only [dget]
    split at h
    · rename_i hk
      rw [if_pos hk]
      exact h
    · rename_i hk
      rw [if_neg hk]
      exact ih h

/-- Appending the optional explanation fields never disturbs a key already
bound in the base record. -/
theorem dget_optFold_some (t : Dict) (fields : List String) :
    ∀ (d : Dict) (k : String) (v : Value), dget d k = some v →
      dget (fields.foldl (fun d f =>
        match dget t f with
        | some w => d ++ [(f, w)]
        | none => d) d) k = some v := by
  induction fields with
  | nil => intro d k v h; exact h
  | cons f fs ih =>
    intro d k v h
    simp only [List.foldl]
    cases hf : dget t f with
    | none => exact ih d k v h
    | some w => exact ih (d ++ [(f, w)]) k v (dget_append_some d [(f, w)] k v h)

/-- A successful `process_ticket` stores the id
`f"{tracking_index}_{now}"` built from the clock at call time. -/
theorem process_ticket_id (env : Env) (t : Dict) (st : St) (trk : Value)
    (rec : Dict) (st2 : St)
    (htrk : dget t "tracking_index" = some trk)
    (hrun : process_ticket env t st = (.ok rec, st2)) :
    dget rec "id" = some (.str (trk.format ++ "_" ++ env.times st.clock)) := by
  unfold process_ticket at hrun
  dsimp only at hrun
  repeat' (split at hrun <;> try (exfalso; simp at hrun; done))
  rename_i trkOpt trkB htrk2 o1 o2 o3 o4 o5 qv pv iv rv cvz hq hp hi2 hr hc
  rw [htrk] at htrk2
  injection htrk2 with htrk3
  injection hrun with h1 h2
  injection h1 with h3
  subst h3
  subst htrk3
  exact dget_optFold_some t optionalFields _ "id" _ rfl

/-- `process_ticket` never reads the store: its outcome is the same whatever
the store holds. -/
theorem process_ticket_store_free (env : Env) (t : Dict) (st : St) (S2 : Store) :
    (process_ticket env t { st with store := S2 }).1 = (process_ticket env t st).1 := by
  unfold process_ticket
  dsimp only
  repeat' (split <;> try rfl)

/-- C7: `process_ticket` performs no store lookup (its outcome ignores the
store), a successful run stores id `tracking_index ++ "_" ++ timestamp`, and
two successive successful ingestions with the same tracking index get
distinct ids whenever their timestamps differ. -/
theorem process_ticket_fresh_ids (env : Env) (st : St) :
    (∀ (t : Dict) (S2 : Store),
      (process_ticket env t { st with store := S2 }).1 = (process_ticket env t st).1)
    ∧ (∀ (t : Dict) (trk : Value) (rec : Dict) (st2 : St),
      dget t "tracking_index" = some trk →
      process_ticket env t st = (.ok rec, st2) →
      dget rec "id" = some (.str (trk.format ++ "_" ++ env.times st.clock)))
    ∧ (∀ (t1 t2 : Dict) (trk : Value) (rec1 rec2 : Dict) (st1 st2 : St),
      dget t1 "tracking_index" = some trk →
      dget t2 "tracking_index" = some trk →
      process_ticket env t1 st = (.ok rec1, st1) →
      process_ticket env t2 st1 = (.ok rec2, st2) →
      env.times st.clock ≠ env.times st1.clock →
      dget rec1 "id" ≠ dget rec2 "id") := by
  refine ⟨fun t S2 => process_ticket_store_free env t st S2,
    fun t trk rec st2 htrk hrun => process_ticket_id env t st trk rec st2 htrk hrun,
    ?_⟩
  intro t1 t2 trk rec1 rec2 st1 st2 h1 h2 hr1 hr2 hne heq
  have e1 := process_ticket_id env t1 st trk rec1 st1 h1 hr1
  have e2 := process_ticket_id env t2 st1 trk rec2 st2 h2 hr2
  rw [e1, e2] at heq
  injection heq with heq1
  injection heq1 with heq2
  exact hne (string_append_right_inj _ _ _ heq2)

/-- C7 witness: two ingestions of the same raw ticket, at clock instants with
timestamps "A" and "B", store records with different ids. -/
theorem process_ticket_fresh_ids_witness :
    dget tkRec1 "id" ≠ dget tkRec2 "id" :=
  (process_ticket_fresh_ids envA st0).2.2 tickA tickA (.str "TK1") tkRec1 tkRec2
    tkRun1.2 tkRun2.2 rfl rfl (by decide) (by decide) (by decide)

/-! ## Statistics grouping (claim C8) -/

theorem countGet_countSet_self (m : List (Value × ℕ)) (k : Value) (n : ℕ) :
    countGet (countSet m k n) k = n := by
  induction m with
  | nil => simp [countGet, countSet]
  | cons kv rest ih =>
    obtain ⟨k0, n0⟩ := kv
    by_cases h : k0 = k
    · simp [countGet, countSet, h]
    · simp [countGet, countSet, h, ih]

theorem countGet_countSet_ne (m : List (Value × ℕ)) (k v : Value) (n : ℕ)
    (h : v ≠ k) : countGet (countSet m k n) v = countGet m v := by
  induction m with
  | nil => simp [countGet, countSet, Ne.symm h]
  | cons kv rest ih =>
    obtain ⟨k0, n0⟩ := kv
    by_cases h0 : k0 = k
    · subst h0
      simp [countGet, countSet, Ne.symm h]
    · simp only [countSet, if_neg h0, countGet]
      by_cases h1 : k0 = v
      · simp [h1]
      · simp [h1, ih]

theorem countGet_bump (m : List (Value × ℕ)) (k v : Value) :
    countGet (bumpCount m k) v
      = if v = k then countGet m v + 1 else countGet m v := by
  by_cases h : v = k
  · subst h
    rw [if_pos rfl]
    exact countGet_countSet_self m v (countGet m v + 1)
  · rw [if_neg h]
    exact countGet_countSet_ne m k v _ h

theorem countGet_foldl_bump (key : Dict → Value) (v : Value) :
    ∀ (l : List Dict) (m : List (Value × ℕ)),
      countGet (l.foldl (fun m d => bumpCount m (key d)) m) v
        = countGet m v + l.countP (fun d => decide (key d = v)) := by
  intro l
  induction l with
  | nil => intro m; simp
  | cons d ds ih =>
    intro m
    simp only [List.foldl, List.countP_cons]
    rw [ih (bumpCount m (key d)), countGet_bump]
    by_cases h : key d = v
    · simp [h]
      omega
    · simp [h, Ne.symm h]

/-- The frequency table built by one grouping pass holds, at each key, the
number of records grouped there. -/
theorem countGet_groupCounts (key : Dict → Value) (l : List Dict) (v : Value) :
    countGet (groupCounts key l) v = l.countP (fun d => decide (key d = v)) := by
  have h := countGet_foldl_bump key v l []
  simpa [groupCounts, countGet] using h

/-- A record groups under "Unknown" exactly when the attribute is absent or
explicitly "Unknown". -/
theorem groupKey_unknown_iff (attr : String) (d : Dict) :
    groupKey attr d = .str "Unknown"
      ↔ (dget d attr = none ∨ dget d attr = some (.str "Unknown")) := by
  unfold groupKey
  cases h : dget d attr <;> simp

/-- C8: in `get_item_statistics`, the "Unknown" bucket of each frequency
table counts exactly the records whose grouping attribute is absent (together
with those explicitly labelled "Unknown"): articles by category, tickets by
quality, tickets by proficiency. -/
theorem get_item_statistics_unknown (s : Store) :
    countGet (get_item_statistics s).kb_article_categories (.str "Unknown")
      = (get_items_by_type s "kb_article").countP
          (fun a => decide (dget a "category" = none
            ∨ dget a "category" = some (.str "Unknown")))
    ∧ countGet (get_item_statistics s).ticket_quality_distribution (.str "Unknown")
      = (get_items_by_type s "ticket").countP
          (fun t => decide (dget t "ticket_quality" = none
            ∨ dget t "ticket_quality" = some (.str "Unknown")))
    ∧ countGet (get_item_statistics s).user_proficiency_distribution (.str "Unknown")
      = (get_items_by_type s "ticket").countP
          (fun t => decide (dget t "user_proficiency" = none
            ∨ dget t "user_proficiency" = some (.str "Unknown"))) := by
  refine ⟨?_, ?_, ?_⟩ <;>
  · simp only [get_item_statistics]
    rw [countGet_groupCounts]
    apply List.countP_congr
    intro a _
    simp only [decide_eq_true_eq]
    exact groupKey_unknown_iff _ a


end SNSifu
